import Mathlib

/-!
Verification development for the terminal menu program `simple_term_menu.py`.

The Python source is shallowly embedded below: the capability tables are the
literal dictionaries from the class body, the terminfo query and its error
handling mirror `_query_terminfo_database` and `_init_terminal_codes`, style
validation mirrors `_check_for_valid_styles`, the key decoder mirrors
`_read_next_key`, the selection loop of `show` becomes an explicit step
function on session states, and the exit-code mapping mirrors `main`.
External effects (the `tput` subprocess, the terminal attribute configuration)
are passed explicitly as function parameters and state values.
-/

namespace SimpleTermMenu

/-- The literal `TerminalMenu._codename_to_capname` dictionary, in source
insertion order. -/
def codenameToCapname : List (String × String) :=
  [("bg_black", "setab 0"),
   ("bg_blue", "setab 4"),
   ("bg_cyan", "setab 6"),
   ("bg_gray", "setab 7"),
   ("bg_green", "setab 2"),
   ("bg_purple", "setab 5"),
   ("bg_red", "setab 1"),
   ("bg_yellow", "setab 3"),
   ("bold", "bold"),
   ("colors", "colors"),
   ("cursor_down", "cud1"),
   ("cursor_invisible", "civis"),
   ("cursor_up", "cuu1"),
   ("cursor_visible", "cnorm"),
   ("delete_line", "dl1"),
   ("down", "kcud1"),
   ("enter_application_mode", "smkx"),
   ("exit_application_mode", "rmkx"),
   ("fg_black", "setaf 0"),
   ("fg_blue", "setaf 4"),
   ("fg_cyan", "setaf 6"),
   ("fg_gray", "setaf 7"),
   ("fg_green", "setaf 2"),
   ("fg_purple", "setaf 5"),
   ("fg_red", "setaf 1"),
   ("fg_yellow", "setaf 3"),
   ("italics", "sitm"),
   ("reset_attributes", "sgr0"),
   ("standout", "smso"),
   ("underline", "smul"),
   ("up", "kcuu1")]

/-- The literal `TerminalMenu._name_to_control_character` dictionary:
`"\012"` is the line feed and `"\033"` the escape character. -/
def nameToControlCharacter : List (String × String) :=
  [("enter", "\n"), ("escape", "\x1b")]

/-- The `TerminalMenu._codenames` tuple: the keys of the capname table in
insertion order. -/
def codenames : List String := codenameToCapname.map Prod.fst

/-- Python dictionary key lookup (`d[k]` / `k in d`) for the string
dictionaries of the program, modelled on association lists with unique keys. -/
def dictLookup (k : String) : List (String × String) → Option String
  | [] => none
  | (a, b) :: rest => if k = a then some b else dictLookup k rest

/-- Lookup in the inverted dictionary `{v: k for k, v in d.items()}`: when
several keys share the value, the key inserted last wins, exactly as the later
assignment overwrites the earlier one in the Python comprehension. -/
def dictReverseLookup (v : String) : List (String × String) → Option String
  | [] => none
  | (a, b) :: rest =>
    match dictReverseLookup v rest with
    | some c => some c
    | none => if b = v then some a else none

/-- ASCII lower-casing of one character, the effect of Python `str.lower` on
the ASCII range the decoder works in. -/
def toLowerAscii (ch : Char) : Char :=
  if 65 ≤ ch.toNat ∧ ch.toNat ≤ 90 then Char.ofNat (ch.toNat + 32) else ch

/-- Python `str.lower` on an ASCII string, written over the character list
so that it evaluates by reduction. -/
def strLower (s : String) : String := String.mk (s.data.map toLowerAscii)

/-- Whether the first list is an initial segment of the second. -/
def startsWithChars : List Char → List Char → Bool
  | [], _ => true
  | _ :: _, [] => false
  | p :: ps, ch :: cs => if p = ch then startsWithChars ps cs else false

/-- Python `str.startswith`, written over the character lists so that it
evaluates by reduction. -/
def strStartsWith (s pat : String) : Bool := startsWithChars pat.data s.data

/-- The whitespace test of Python `int()` argument stripping. -/
def isSpaceChar (ch : Char) : Bool :=
  ch = ' ' ∨ ch = '\t' ∨ ch = '\n' ∨ ch = '\r'

/-- Drop leading whitespace characters. -/
def dropSpaces : List Char → List Char
  | [] => []
  | ch :: rest => if isSpaceChar ch = true then dropSpaces rest else ch :: rest

/-- Accumulate a decimal digit string; `none` on any non-digit character. -/
def natOfDigitsAux : List Char → Nat → Option Nat
  | [], acc => some acc
  | ch :: rest, acc =>
    if 48 ≤ ch.toNat ∧ ch.toNat ≤ 57 then
      natOfDigitsAux rest (10 * acc + (ch.toNat - 48))
    else none

/-- A non-empty all-digit character list as a number. -/
def natOfDigits : List Char → Option Nat
  | [] => none
  | ds => natOfDigitsAux ds 0

/-- Python `int()` applied to a `tput` output string: surrounding whitespace
is stripped, an optional sign is accepted, and anything else raises
`ValueError` (modelled as `none`). -/
def pythonInt? (s : String) : Option Int :=
  match dropSpaces ((dropSpaces s.data.reverse).reverse) with
  | '-' :: ds => (natOfDigits ds).map (fun n => -(n : Int))
  | '+' :: ds => (natOfDigits ds).map (fun n => (n : Int))
  | ds => (natOfDigits ds).map (fun n => (n : Int))

/-- Outcome of one `tput` invocation: its standard output on success, or a
`subprocess.CalledProcessError` carrying the return code. -/
inductive QueryResult where
  | ok (out : String)
  | err (returncode : Int)
deriving DecidableEq

/-- Exceptions that can escape `TerminalMenu._init_terminal_codes`: a
re-raised `CalledProcessError` (return code other than 1), or the
`ValueError` from `int()` when the colors query output does not parse. -/
inductive InitError where
  | calledProcessError (returncode : Int)
  | valueError
deriving DecidableEq

/-- The capname selection at the top of `_query_terminfo_database`: a known
codename is translated through the capname table, anything else is passed to
`tput` verbatim. -/
def capnameFor (codename : String) : String :=
  match dictLookup codename codenameToCapname with
  | some capname => capname
  | none => codename

/-- `TerminalMenu._query_terminfo_database`: run `tput`; a
`CalledProcessError` with return code 1 means the capability is absent and
yields the empty string, any other `CalledProcessError` is re-raised. -/
def queryTerminfoDatabase (tput : String → QueryResult) (codename : String) :
    Except Int String :=
  match tput (capnameFor codename) with
  | QueryResult.ok out => Except.ok out
  | QueryResult.err rc => if rc = 1 then Except.ok "" else Except.error rc

/-- The color-codename test `codename.startswith("bg_") or
codename.startswith("fg_")` from `_init_terminal_codes`. -/
def isColorCodename (codename : String) : Bool :=
  strStartsWith codename "bg_" || strStartsWith codename "fg_"

/-- Observable terminal-related actions, used to record what initialization
touches: a `tput` child process, a `termios.tcgetattr`, a
`termios.tcsetattr`, or a write to standard output. -/
inductive TermAction where
  | tputQuery (capname : String)
  | attrRead
  | attrWrite
  | stdoutWrite (s : String)
deriving DecidableEq

/-- The dictionary comprehension of `_init_terminal_codes`, one codename at a
time: a foreground/background codename resolves to `""` without a query when
fewer than 8 colors are supported, otherwise the terminfo database is
queried; a re-raised query error aborts the whole comprehension.  The second
component records the `tput` invocations that were actually performed. -/
def buildCodesAux (tput : String → QueryResult) (supportedColors : Int) :
    List String → Except InitError (List (String × String)) × List TermAction
  | [] => (Except.ok [], [])
  | cn :: rest =>
    if isColorCodename cn = true ∧ supportedColors < 8 then
      match buildCodesAux tput supportedColors rest with
      | (Except.ok l', tr) => (Except.ok ((cn, "") :: l'), tr)
      | (Except.error e, tr) => (Except.error e, tr)
    else
      match queryTerminfoDatabase tput cn with
      | Except.ok v =>
        match buildCodesAux tput supportedColors rest with
        | (Except.ok l', tr) =>
          (Except.ok ((cn, v) :: l'), TermAction.tputQuery (capnameFor cn) :: tr)
        | (Except.error e, tr) =>
          (Except.error e, TermAction.tputQuery (capnameFor cn) :: tr)
      | Except.error rc =>
        (Except.error (InitError.calledProcessError rc), [TermAction.tputQuery (capnameFor cn)])

/-- `TerminalMenu._init_terminal_codes`: query the supported color count,
build the codename-to-terminal-code dictionary, then extend it with the
control characters for enter and escape.  The trace records every `tput`
invocation; the method performs no terminal attribute access. -/
def initTerminalCodes (tput : String → QueryResult) :
    Except InitError (List (String × String)) × List TermAction :=
  match queryTerminfoDatabase tput "colors" with
  | Except.error rc => (Except.error (InitError.calledProcessError rc), [TermAction.tputQuery "colors"])
  | Except.ok s =>
    match pythonInt? s with
    | none => (Except.error InitError.valueError, [TermAction.tputQuery "colors"])
    | some n =>
      match buildCodesAux tput n codenames with
      | (Except.ok l', tr) =>
        (Except.ok (l' ++ nameToControlCharacter), TermAction.tputQuery "colors" :: tr)
      | (Except.error e, tr) =>
        (Except.error e, TermAction.tputQuery "colors" :: tr)

/-- The reverse dictionary `_terminal_code_to_codename` as a lookup function:
`{terminal_code: codename for codename, terminal_code in ...}`. -/
def terminalCodeToCodename (pairs : List (String × String)) (code : String) :
    Option String :=
  dictReverseLookup code pairs

/-- `TerminalMenu._check_for_valid_styles`: the styles of the cursor tuple
followed by the highlight tuple that are not keys of the capname table. -/
def invalidStyles (menuCursorStyle menuHighlightStyle : List String) : List String :=
  (menuCursorStyle ++ menuHighlightStyle).filter
    (fun style => (dictLookup style codenameToCapname).isNone)

/-- Exceptions that can escape `TerminalMenu.__init__`: the
`InvalidStyleError` raised by `_check_for_valid_styles` (carrying the
offending styles), or an error propagated from `_init_terminal_codes`. -/
inductive ConstructError where
  | invalidStyle (styles : List String)
  | initError (e : InitError)
deriving DecidableEq

/-- `TerminalMenu.__init__` after the field assignments:
`_check_for_valid_styles` runs first and raises before any query when a style
is unknown; only then does `_init_terminal_codes` run.  The trace records the
terminal-related actions of construction. -/
def constructMenu (tput : String → QueryResult)
    (menuCursorStyle menuHighlightStyle : List String) :
    Except ConstructError (List (String × String)) × List TermAction :=
  if invalidStyles menuCursorStyle menuHighlightStyle ≠ [] then
    (Except.error (ConstructError.invalidStyle (invalidStyles menuCursorStyle menuHighlightStyle)), [])
  else
    match initTerminalCodes tput with
    | (Except.ok codes, tr) => (Except.ok codes, tr)
    | (Except.error e, tr) => (Except.error (ConstructError.initError e), tr)

/-- Result of one `_read_next_key` call: the decoded key string, or the
`UnicodeDecodeError` raised by `bytes.decode("ascii")`. -/
inductive ReadKeyResult where
  | key (s : String)
  | unicodeDecodeError
deriving DecidableEq

/-- `bytes.decode("ascii")`: succeeds exactly when every byte is below 128. -/
def decodeAscii (chunk : List Nat) : Option String :=
  if chunk.all (fun b => b < 128) = true then
    some (String.mk (chunk.map Char.ofNat))
  else
    none

/-- `TerminalMenu._read_next_key`: decode the raw chunk as ASCII, look the
whole string up in the reverse capability dictionary, and otherwise return it
as a literal key, lower-cased when `ignore_case` is set. -/
def readNextKey (pairs : List (String × String)) (ignoreCase : Bool)
    (chunk : List Nat) : ReadKeyResult :=
  match decodeAscii chunk with
  | none => ReadKeyResult.unicodeDecodeError
  | some code =>
    match terminalCodeToCodename pairs code with
    | some codename => ReadKeyResult.key codename
    | none =>
      if ignoreCase = true then ReadKeyResult.key (strLower code)
      else ReadKeyResult.key code

/-- The session state of the selection loop in `show`: still looping with the
current `selected_index`, broken out with a selection, or broken out with
`selected_index = None`. -/
inductive SessionState where
  | active (index : Int)
  | selected (index : Int)
  | cancelled
deriving DecidableEq

/-- One event consumed by the loop in `show`: a decoded key string returned
by `_read_next_key`, or a `KeyboardInterrupt` arriving during the blocking
read. -/
inductive KeyOrSignal where
  | key (s : String)
  | interrupt
deriving DecidableEq

/-- The `up`/`k` branch of the loop in `show`: decrement, then wrap to the
last entry or clamp to 0 when the index became negative. -/
def navigateUp (numEntries : Nat) (cycleCursor : Bool) (i : Int) : Int :=
  if i - 1 < 0 then
    if cycleCursor = true then (numEntries : Int) - 1 else 0
  else i - 1

/-- The `down`/`j` branch of the loop in `show`: increment, then wrap to 0 or
clamp to the last entry when the index reached the entry count. -/
def navigateDown (numEntries : Nat) (cycleCursor : Bool) (i : Int) : Int :=
  if i + 1 ≥ (numEntries : Int) then
    if cycleCursor = true then 0 else (numEntries : Int) - 1
  else i + 1

/-- The dispatch on `next_key` in the loop body of `show`. -/
def handleKey (numEntries : Nat) (cycleCursor : Bool) (i : Int) (k : String) :
    SessionState :=
  if k = "up" ∨ k = "k" then SessionState.active (navigateUp numEntries cycleCursor i)
  else if k = "down" ∨ k = "j" then SessionState.active (navigateDown numEntries cycleCursor i)
  else if k = "enter" then SessionState.selected i
  else if k = "escape" then SessionState.cancelled
  else SessionState.active i

/-- One loop iteration of `show`, including the `except KeyboardInterrupt`
handler that sets `selected_index = None`. -/
def handleEvent (numEntries : Nat) (cycleCursor : Bool) (i : Int)
    (e : KeyOrSignal) : SessionState :=
  match e with
  | KeyOrSignal.key k => handleKey numEntries cycleCursor i k
  | KeyOrSignal.interrupt => SessionState.cancelled

/-- The selection loop of `show` run over a finite event sequence: the state
after consuming the events, starting from index `i`; an exhausted sequence
while still active models the loop blocked in the next read. -/
def runEvents (numEntries : Nat) (cycleCursor : Bool) :
    Int → List KeyOrSignal → SessionState
  | i, [] => SessionState.active i
  | i, e :: es =>
    match handleEvent numEntries cycleCursor i e with
    | SessionState.active j => runEvents numEntries cycleCursor j es
    | s => s

/-- The terminal attribute configuration handled by `termios.tcgetattr` and
`termios.tcsetattr`: the two local flags cleared by `_init_term` and the rest
of the configuration, abstracted as a number. -/
structure TermAttributes where
  lflagIcanon : Bool
  lflagEcho : Bool
  otherAttrs : Nat
deriving DecidableEq

/-- The full observable terminal state: the attribute configuration, cursor
visibility, and application/keypad mode. -/
structure TerminalState where
  attributes : TermAttributes
  cursorVisible : Bool
  applicationMode : Bool
deriving DecidableEq

/-- The modified configuration built in `_init_term`:
`new_term[3] & ~termios.ICANON & ~termios.ECHO`. -/
def rawAttributes (a : TermAttributes) : TermAttributes :=
  { a with lflagIcanon := false, lflagEcho := false }

/-- The complete effect of `_init_term` on the terminal: raw attributes
applied, cursor hidden, application mode entered. -/
def initTermEffect (t : TerminalState) : TerminalState :=
  { attributes := rawAttributes t.attributes,
    cursorVisible := false,
    applicationMode := true }

/-- The effect of `_reset_term`: the captured attribute configuration written
back verbatim, cursor visible, application mode left. -/
def resetTermEffect (old : TermAttributes) (_t : TerminalState) : TerminalState :=
  { attributes := old,
    cursorVisible := true,
    applicationMode := false }

/-- Where an exception strikes before the `try` block of `show` is entered:
nowhere, inside `_init_term` right after `tcsetattr` applied the raw
attributes, or during the initial `print_menu` call (after `_init_term`
returned, still before the `try`). -/
inductive EarlyInterrupt where
  | noEarlyInterrupt
  | duringInitTerm
  | duringInitialPrint
deriving DecidableEq

/-- How a `show` call ends: a returned value, an exception that escaped
because no handler was active yet, or blocked forever in a read. -/
inductive ShowOutcome where
  | returned (result : Option Int)
  | uncaughtInterrupt
  | blocked
deriving DecidableEq

/-- Observable summary of one `show` call: the terminal state it leaves
behind, how many times `_reset_term` ran, and how the call ended. -/
structure ShowTrace where
  finalTerminal : TerminalState
  resetTermCalls : Nat
  outcome : ShowOutcome
deriving DecidableEq

/-- `TerminalMenu.show` over an explicit terminal state: `_init_term` runs
first (capturing `old_term` and applying the raw configuration), then the
initial `print_menu`, and only then the `try` block whose `finally` clause
runs `clear_menu` and `_reset_term`.  An interrupt before the `try` block
therefore escapes without any reset; inside the loop, enter, escape and
`KeyboardInterrupt` all reach the `finally` clause exactly once. -/
def showExec (numEntries : Nat) (cycleCursor : Bool) (t0 : TerminalState)
    (events : List KeyOrSignal) (early : EarlyInterrupt) : ShowTrace :=
  match early with
  | EarlyInterrupt.duringInitTerm =>
    { finalTerminal := { t0 with attributes := rawAttributes t0.attributes },
      resetTermCalls := 0,
      outcome := ShowOutcome.uncaughtInterrupt }
  | EarlyInterrupt.duringInitialPrint =>
    { finalTerminal := initTermEffect t0,
      resetTermCalls := 0,
      outcome := ShowOutcome.uncaughtInterrupt }
  | EarlyInterrupt.noEarlyInterrupt =>
    match runEvents numEntries cycleCursor 0 events with
    | SessionState.active _ =>
      { finalTerminal := initTermEffect t0,
        resetTermCalls := 0,
        outcome := ShowOutcome.blocked }
    | SessionState.selected i =>
      { finalTerminal := resetTermEffect t0.attributes (initTermEffect t0),
        resetTermCalls := 1,
        outcome := ShowOutcome.returned (some i) }
    | SessionState.cancelled =>
      { finalTerminal := resetTermEffect t0.attributes (initTermEffect t0),
        resetTermCalls := 1,
        outcome := ShowOutcome.returned none }

/-- The option values `main` works with after `parse_arguments` succeeded. -/
structure ParsedArgs where
  printVersion : Bool
  entries : List String
  cursorStyle : List String
  highlightStyle : List String
  cycleCursor : Bool
deriving DecidableEq

/-- How the process ends in `main`: a `sys.exit` code, or an exception from
initialization that no handler in `main` catches. -/
inductive MainOutcome where
  | exitCode (code : Nat)
  | uncaughtInit (e : InitError)
deriving DecidableEq

/-- The version line printed by `main` for `-V`. -/
def versionLine (progName : String) : String := progName ++ ", version 0.4.5"

/-- `main`: argparse `SystemExit` (help or usage error, modelled as a missing
`ParsedArgs`) exits 0; `NoMenuEntriesError` exits 0; the version flag prints
the version line and exits 0; `InvalidStyleError` exits 0; a selection `i`
from `show` exits with `i + 1` and `None` exits 0.  The second component is
the list of lines `main` itself prints to standard output. -/
def mainRun (tput : String → QueryResult) (progName : String)
    (parsed : Option ParsedArgs) (showResult : Option Nat) :
    MainOutcome × List String :=
  match parsed with
  | none => (MainOutcome.exitCode 0, [])
  | some args =>
    if args.printVersion = false ∧ args.entries = [] then
      (MainOutcome.exitCode 0, [])
    else if args.printVersion = true then
      (MainOutcome.exitCode 0, [versionLine progName])
    else
      match (constructMenu tput args.cursorStyle args.highlightStyle).1 with
      | Except.error (ConstructError.invalidStyle _) => (MainOutcome.exitCode 0, [])
      | Except.error (ConstructError.initError e) => (MainOutcome.uncaughtInit e, [])
      | Except.ok _ =>
        match showResult with
        | none => (MainOutcome.exitCode 0, [])
        | some i => (MainOutcome.exitCode (i + 1), [])

/-- A terminal whose capability database answers every query with a distinct
nonempty sequence and reports 256 colors. -/
def tputDistinct : String → QueryResult := fun capname =>
  if capname = "colors" then QueryResult.ok "256"
  else QueryResult.ok ("<" ++ capname ++ ">")

/-- The codename dictionary built on the `tputDistinct` terminal. -/
def distinctCodes : List (String × String) :=
  ((initTerminalCodes tputDistinct).1).toOption.getD []

/-- A terminal that reports 0 colors and otherwise answers every query with a
distinct nonempty sequence. -/
def tputLowColors : String → QueryResult := fun capname =>
  if capname = "colors" then QueryResult.ok "0"
  else QueryResult.ok ("<" ++ capname ++ ">")

/-- The codename dictionary built on the `tputLowColors` terminal: every
foreground and background codename resolves to the empty sequence. -/
def lowColorsCodes : List (String × String) :=
  ((initTerminalCodes tputLowColors).1).toOption.getD []

/-- A terminal on which every capability is absent (`tput` return code 1). -/
def tputAbsent : String → QueryResult := fun _ => QueryResult.err 1

/-- A terminal whose colors query succeeds but whose other queries fail with
return code 2 (a genuine `tput` failure, not a missing capability). -/
def tputBroken : String → QueryResult := fun capname =>
  if capname = "colors" then QueryResult.ok "8" else QueryResult.err 2

/-! ## Helper lemmas about the selection state machine -/

theorem navigateUp_bounds {N : Nat} {c : Bool} {i : Int}
    (hN : 1 ≤ N) (_h0 : 0 ≤ i) (hi : i < (N : Int)) :
    0 ≤ navigateUp N c i ∧ navigateUp N c i < (N : Int) := by
  unfold navigateUp
  split_ifs <;> omega

theorem navigateDown_bounds {N : Nat} {c : Bool} {i : Int}
    (hN : 1 ≤ N) (h0 : 0 ≤ i) (hi : i < (N : Int)) :
    0 ≤ navigateDown N c i ∧ navigateDown N c i < (N : Int) := by
  unfold navigateDown
  split_ifs <;> omega

theorem handleKey_bounds {N : Nat} {c : Bool} {i j : Int} {k : String}
    (hN : 1 ≤ N) (h0 : 0 ≤ i) (hi : i < (N : Int))
    (h : handleKey N c i k = SessionState.active j) : 0 ≤ j ∧ j < (N : Int) := by
  unfold handleKey at h
  split_ifs at h
  · rw [SessionState.active.injEq] at h
    exact h ▸ navigateUp_bounds hN h0 hi
  · rw [SessionState.active.injEq] at h
    exact h ▸ navigateDown_bounds hN h0 hi
  · rw [SessionState.active.injEq] at h
    exact h ▸ ⟨h0, hi⟩

theorem handleEvent_bounds {N : Nat} {c : Bool} {i j : Int} {e : KeyOrSignal}
    (hN : 1 ≤ N) (h0 : 0 ≤ i) (hi : i < (N : Int))
    (h : handleEvent N c i e = SessionState.active j) : 0 ≤ j ∧ j < (N : Int) := by
  cases e with
  | key k => exact handleKey_bounds hN h0 hi h
  | interrupt => exact SessionState.noConfusion h

theorem runEvents_cons_active {N : Nat} {c : Bool} {i m : Int} {e : KeyOrSignal}
    {es : List KeyOrSignal} (he : handleEvent N c i e = SessionState.active m) :
    runEvents N c i (e :: es) = runEvents N c m es := by
  conv_lhs => rw [runEvents]
  rw [he]

theorem runEvents_cons_selected {N : Nat} {c : Bool} {i m : Int} {e : KeyOrSignal}
    {es : List KeyOrSignal} (he : handleEvent N c i e = SessionState.selected m) :
    runEvents N c i (e :: es) = SessionState.selected m := by
  conv_lhs => rw [runEvents]
  rw [he]

theorem runEvents_cons_cancelled {N : Nat} {c : Bool} {i : Int} {e : KeyOrSignal}
    {es : List KeyOrSignal} (he : handleEvent N c i e = SessionState.cancelled) :
    runEvents N c i (e :: es) = SessionState.cancelled := by
  conv_lhs => rw [runEvents]
  rw [he]

theorem runEvents_bounds {N : Nat} {c : Bool} {j : Int} {es : List KeyOrSignal}
    (hN : 1 ≤ N) :
    ∀ {i : Int}, 0 ≤ i → i < (N : Int) →
      runEvents N c i es = SessionState.active j → 0 ≤ j ∧ j < (N : Int) := by
  induction es with
  | nil =>
    intro i h0 hi h
    unfold runEvents at h
    rw [SessionState.active.injEq] at h
    exact h ▸ ⟨h0, hi⟩
  | cons e es ih =>
    intro i h0 hi h
    cases he : handleEvent N c i e with
    | active m =>
      rw [runEvents_cons_active he] at h
      obtain ⟨hm0, hmN⟩ := handleEvent_bounds hN h0 hi he
      exact ih hm0 hmN h
    | selected m =>
      rw [runEvents_cons_selected he] at h
      exact SessionState.noConfusion h
    | cancelled =>
      rw [runEvents_cons_cancelled he] at h
      exact SessionState.noConfusion h

theorem runEvents_append (N : Nat) (c : Bool) (es es' : List KeyOrSignal) :
    ∀ {i j : Int}, runEvents N c i es = SessionState.active j →
      runEvents N c i (es ++ es') = runEvents N c j es' := by
  induction es with
  | nil =>
    intro i j h
    unfold runEvents at h
    rw [SessionState.active.injEq] at h
    rw [List.nil_append, h]
  | cons e es ih =>
    intro i j h
    cases he : handleEvent N c i e with
    | active m =>
      rw [runEvents_cons_active he] at h
      rw [List.cons_append, runEvents_cons_active he]
      exact ih h
    | selected m =>
      rw [runEvents_cons_selected he] at h
      exact SessionState.noConfusion h
    | cancelled =>
      rw [runEvents_cons_cancelled he] at h
      exact SessionState.noConfusion h

/-! ## Claims about the selection state machine -/

/-- Claim C2: for a menu of `N ≥ 1` entries and a current index `i` in
`[0, N)`, an `up` event takes `i` to `i - 1` except at `i = 0`, where it
wraps to `N - 1` under cycling and stays at `0` otherwise, and a `down`
event takes `i` to `i + 1` except at `i = N - 1`, where it wraps to `0`
under cycling and stays at `N - 1` otherwise. -/
theorem up_down_navigation (N : Nat) (c : Bool) (i : Int)
    (hN : 1 ≤ N) (h0 : 0 ≤ i) (hi : i < (N : Int)) :
    handleKey N c i "up" =
      SessionState.active
        (if i = 0 then (if c = true then (N : Int) - 1 else 0) else i - 1) ∧
    handleKey N c i "down" =
      SessionState.active
        (if i = (N : Int) - 1 then (if c = true then 0 else (N : Int) - 1) else i + 1) := by
  have hu : handleKey N c i "up" = SessionState.active (navigateUp N c i) := rfl
  have hd : handleKey N c i "down" = SessionState.active (navigateDown N c i) := rfl
  rw [hu, hd]
  constructor
  · congr 1
    unfold navigateUp
    split_ifs <;> omega
  · congr 1
    unfold navigateDown
    split_ifs <;> omega

/-- Witness for C2 at `N = 3`, cycling enabled: `up` from 0 wraps to 2 and
`down` from 2 wraps to 0. -/
theorem up_down_navigation_check :
    handleKey 3 true 0 "up" = SessionState.active 2 ∧
    handleKey 3 true 2 "down" = SessionState.active 0 := by
  constructor
  · exact ((up_down_navigation 3 true 0 (by decide) (by decide) (by decide)).1).trans (by decide)
  · exact ((up_down_navigation 3 true 2 (by decide) (by decide) (by decide)).2).trans (by decide)

/-- Claim C3: for a menu of `N ≥ 1` entries, starting from the initial index
0, the selection index is within `[0, N)` in every active state reached by
any sequence of key events. -/
theorem selection_index_always_in_bounds (N : Nat) (c : Bool)
    (events : List KeyOrSignal) (i : Int) (hN : 1 ≤ N)
    (h : runEvents N c 0 events = SessionState.active i) :
    0 ≤ i ∧ i < (N : Int) :=
  runEvents_bounds hN (le_refl 0) (by exact_mod_cast hN) h

/-- Witness for C3: two entries, one `up` event from the initial state. -/
theorem selection_index_always_in_bounds_check :
    runEvents 2 true 0 [KeyOrSignal.key "up"] = SessionState.active 1 ∧
    (0 ≤ (1 : Int) ∧ (1 : Int) < (2 : Nat)) :=
  ⟨by decide, selection_index_always_in_bounds 2 true [KeyOrSignal.key "up"] 1
    (by decide) (by decide)⟩

/-- Claim C5 as stated is false on the code: the decoded key event `"k"` is a
literal character key, not one of up, down, enter or escape, yet the loop
treats it as an up movement and changes the state. -/
theorem literal_k_key_not_ignored :
    ("k" : String) ≠ "up" ∧ ("k" : String) ≠ "down" ∧ ("k" : String) ≠ "enter" ∧
    ("k" : String) ≠ "escape" ∧ handleKey 2 true 0 "k" ≠ SessionState.active 0 := by
  decide

/-- Claim C5 amended: a decoded key that is none of `"up"`, `"k"`, `"down"`,
`"j"`, `"enter"`, `"escape"` leaves the active state unchanged. -/
theorem unhandled_key_leaves_state_unchanged (N : Nat) (c : Bool) (i : Int)
    (k : String)
    (h : k ∉ (["up", "k", "down", "j", "enter", "escape"] : List String)) :
    handleKey N c i k = SessionState.active i := by
  simp only [List.mem_cons, List.not_mem_nil, or_false, not_or] at h
  obtain ⟨h1, h2, h3, h4, h5, h6⟩ := h
  simp [handleKey, h1, h2, h3, h4, h5, h6]

/-- Witness for the amended C5: the key `"x"` is ignored. -/
theorem unhandled_key_leaves_state_unchanged_check :
    handleKey 5 false 3 "x" = SessionState.active 3 :=
  unhandled_key_leaves_state_unchanged 5 false 3 "x" (by decide)

/-- Claim C6: when the session is still active with index `i` after a
sequence of events, appending an enter event terminates the session in
`selected i`, and `show` returns that index. -/
theorem enter_selects_current_index (N : Nat) (c : Bool)
    (events : List KeyOrSignal) (i : Int)
    (h : runEvents N c 0 events = SessionState.active i) :
    runEvents N c 0 (events ++ [KeyOrSignal.key "enter"]) = SessionState.selected i ∧
    ∀ t0 : TerminalState,
      (showExec N c t0 (events ++ [KeyOrSignal.key "enter"])
        EarlyInterrupt.noEarlyInterrupt).outcome = ShowOutcome.returned (some i) := by
  have hrun : runEvents N c 0 (events ++ [KeyOrSignal.key "enter"]) =
      SessionState.selected i := by
    rw [runEvents_append N c events [KeyOrSignal.key "enter"] h]
    rfl
  refine ⟨hrun, fun t0 => ?_⟩
  simp only [showExec, hrun]

/-- Witness for C6: pressing `"j"` then enter in a three-entry menu selects
index 1. -/
theorem enter_selects_current_index_check :
    runEvents 3 true 0 [KeyOrSignal.key "j", KeyOrSignal.key "enter"] =
      SessionState.selected 1 :=
  (enter_selects_current_index 3 true [KeyOrSignal.key "j"] 1 (by decide)).1

/-- Claim C1 is violated by the code: `_init_term` and the initial
`print_menu` call run before the `try` block of `show`, so a
`KeyboardInterrupt` arriving there escapes without `_reset_term` ever
running, and the terminal attributes are left in the modified raw
configuration instead of the captured one. -/
theorem show_interrupt_before_loop_skips_reset :
    (showExec 2 true ⟨⟨true, true, 7⟩, true, false⟩ []
      EarlyInterrupt.duringInitialPrint).resetTermCalls = 0 ∧
    (showExec 2 true ⟨⟨true, true, 7⟩, true, false⟩ []
      EarlyInterrupt.duringInitialPrint).finalTerminal.attributes ≠
      (⟨true, true, 7⟩ : TermAttributes) ∧
    (showExec 2 true ⟨⟨true, true, 7⟩, true, false⟩ []
      EarlyInterrupt.duringInitialPrint).outcome = ShowOutcome.uncaughtInterrupt := by
  decide

/-! ## Helper lemmas about the dictionary model -/

theorem dictLookup_mem {l : List (String × String)} {k v : String}
    (h : dictLookup k l = some v) : (k, v) ∈ l := by
  induction l with
  | nil => cases h
  | cons a rest ih =>
    obtain ⟨a1, a2⟩ := a
    unfold dictLookup at h
    split_ifs at h with hk
    · rw [Option.some.injEq] at h
      subst hk
      subst h
      exact List.mem_cons_self _ _
    · exact List.mem_cons_of_mem _ (ih h)

theorem dictLookup_append_some {l₁ l₂ : List (String × String)} {k v : String}
    (h : dictLookup k l₁ = some v) : dictLookup k (l₁ ++ l₂) = some v := by
  induction l₁ with
  | nil => cases h
  | cons a rest ih =>
    obtain ⟨a1, a2⟩ := a
    rw [List.cons_append]
    unfold dictLookup at h ⊢
    split_ifs at h ⊢ with hk
    · exact h
    · exact ih h

theorem dictReverseLookup_mem {l : List (String × String)} {v c : String}
    (h : dictReverseLookup v l = some c) : (c, v) ∈ l := by
  induction l with
  | nil => cases h
  | cons a rest ih =>
    obtain ⟨a1, a2⟩ := a
    unfold dictReverseLookup at h
    cases hres : dictReverseLookup v rest with
    | some c' =>
      rw [hres] at h
      rw [Option.some.injEq] at h
      subst h
      exact List.mem_cons_of_mem _ (ih hres)
    | none =>
      rw [hres] at h
      split_ifs at h with hv
      · rw [Option.some.injEq] at h
        subst h
        subst hv
        exact List.mem_cons_self _ _

theorem dictReverseLookup_ne_none_of_mem {l : List (String × String)} {c v : String}
    (hmem : (c, v) ∈ l) : dictReverseLookup v l ≠ none := by
  induction l with
  | nil => cases hmem
  | cons a rest ih =>
    obtain ⟨a1, a2⟩ := a
    unfold dictReverseLookup
    cases hres : dictReverseLookup v rest with
    | some c' => simp
    | none =>
      rcases List.mem_cons.mp hmem with hhead | htail
      · injection hhead with h1 h2
        rw [if_pos h2.symm]
        simp
      · exact absurd hres (ih htail)

theorem dictReverseLookup_eq_of_unique {l : List (String × String)} {c v : String}
    (hmem : (c, v) ∈ l) (huniq : ∀ p ∈ l, p.2 = v → p.1 = c) :
    dictReverseLookup v l = some c := by
  cases hres : dictReverseLookup v l with
  | some c' =>
    have hm := dictReverseLookup_mem hres
    have hc : c' = c := huniq (c', v) hm rfl
    rw [hc]
  | none => exact absurd hres (dictReverseLookup_ne_none_of_mem hmem)

/-! ## Claims about the key decoder -/

/-- Claim C9 as stated is false on the code: a chunk containing a byte that
is not ASCII (here the single byte 200) makes `bytes.decode("ascii")` raise
`UnicodeDecodeError` instead of producing a literal character key. -/
theorem nonascii_chunk_is_decode_error :
    readNextKey [] true [200] = ReadKeyResult.unicodeDecodeError ∧
    readNextKey [] true [200] ≠ ReadKeyResult.key (String.mk [Char.ofNat 200]) ∧
    readNextKey [] true [200] ≠ ReadKeyResult.key (strLower (String.mk [Char.ofNat 200])) := by
  decide

/-- Claim C9 amended: for a chunk of ASCII bytes (all below 128), the whole
decoded chunk is first matched against the reverse capability map and
resolves to the matching codename; on no match the decoded chunk itself is
returned as a literal key, lower-cased when case-insensitive matching is
requested; no error is possible on such a chunk. -/
theorem ascii_chunk_decoding (pairs : List (String × String)) (ic : Bool)
    (chunk : List Nat) (h : chunk.all (fun b => b < 128) = true) :
    (∀ cn, terminalCodeToCodename pairs (String.mk (chunk.map Char.ofNat)) = some cn →
        readNextKey pairs ic chunk = ReadKeyResult.key cn) ∧
    (terminalCodeToCodename pairs (String.mk (chunk.map Char.ofNat)) = none →
        readNextKey pairs ic chunk =
          if ic = true then
            ReadKeyResult.key (strLower (String.mk (chunk.map Char.ofNat)))
          else
            ReadKeyResult.key (String.mk (chunk.map Char.ofNat))) ∧
    readNextKey pairs ic chunk ≠ ReadKeyResult.unicodeDecodeError := by
  have hd : decodeAscii chunk = some (String.mk (chunk.map Char.ofNat)) := by
    unfold decodeAscii
    rw [if_pos h]
  refine ⟨?_, ?_, ?_⟩
  · intro cn hcn
    simp only [readNextKey, hd, hcn]
  · intro hnone
    simp only [readNextKey, hd, hnone]
  · intro heq
    simp only [readNextKey, hd] at heq
    cases htc : terminalCodeToCodename pairs (String.mk (chunk.map Char.ofNat)) with
    | some cn =>
      simp only [htc] at heq
      exact ReadKeyResult.noConfusion heq
    | none =>
      simp only [htc] at heq
      split_ifs at heq

/-- Witness for the amended C9: the chunk `[75]` (the byte of `"K"`) with an
empty reverse map and case folding requested decodes to the literal key
`"k"`. -/
theorem ascii_chunk_decoding_check :
    readNextKey [] true [75] = ReadKeyResult.key "k" := by
  have h := (ascii_chunk_decoding [] true [75] (by decide)).2.1 (by decide)
  exact h.trans (by decide)

/-! ## Claims about the capability map inversion -/

/-- Claim C10 as stated is false on the code: on a terminal reporting 0
colors, `fg_black` resolves to the empty sequence, but the inverted
dictionary maps the empty sequence to `fg_yellow` (the last codename with
that sequence), not back to `fg_black`. -/
theorem reverse_map_not_inverse_on_low_colors :
    (initTerminalCodes tputLowColors).1 = Except.ok lowColorsCodes ∧
    dictLookup "fg_black" lowColorsCodes = some "" ∧
    terminalCodeToCodename lowColorsCodes "" = some "fg_yellow" ∧
    ("fg_yellow" : String) ≠ "fg_black" := by
  refine ⟨rfl, by decide, by decide, by decide⟩

/-- Claim C10 amended: the reverse map inverts the forward resolution at
every codename whose escape sequence no other entry of the built dictionary
shares; when sequences collide, the reverse map returns the codename
inserted last instead. -/
theorem reverse_map_inverts_injective_resolution (tput : String → QueryResult)
    (m : List (String × String)) (c v : String)
    (_hm : (initTerminalCodes tput).1 = Except.ok m)
    (hc : dictLookup c m = some v)
    (huniq : ∀ p ∈ m, p.2 = v → p.1 = c) :
    terminalCodeToCodename m v = some c :=
  dictReverseLookup_eq_of_unique (dictLookup_mem hc) huniq

/-- Witness for the amended C10: on a terminal answering every query with a
distinct sequence, the reverse map sends the sequence of `cursor_up` back to
`cursor_up`. -/
theorem reverse_map_inverts_injective_resolution_check :
    terminalCodeToCodename distinctCodes "<cuu1>" = some "cursor_up" :=
  reverse_map_inverts_injective_resolution tputDistinct distinctCodes "cursor_up" "<cuu1>"
    rfl (by decide) (by decide)

/-! ## Claims about the command-line contract -/

/-- Claim C4: selecting the entry at index `i` exits with code `i + 1`;
cancellation (a `None` result from `show`, a missing-entries error, an
invalid style) exits with code 0; a version or help flag exits with code 0;
and in none of these runs does `main` print a value representing the
selection to standard output. -/
theorem exit_code_contract (tput : String → QueryResult) (prog : String) :
    (∀ args i, args.printVersion = false → args.entries ≠ [] →
        (∃ codes, (constructMenu tput args.cursorStyle args.highlightStyle).1 =
          Except.ok codes) →
        mainRun tput prog (some args) (some i) = (MainOutcome.exitCode (i + 1), []) ∧
        mainRun tput prog (some args) none = (MainOutcome.exitCode 0, [])) ∧
    (∀ args r, args.printVersion = false → args.entries = [] →
        mainRun tput prog (some args) r = (MainOutcome.exitCode 0, [])) ∧
    (∀ args r, args.printVersion = true →
        mainRun tput prog (some args) r = (MainOutcome.exitCode 0, [versionLine prog])) ∧
    (∀ r, mainRun tput prog none r = (MainOutcome.exitCode 0, [])) ∧
    (∀ args r s, s ∈ args.cursorStyle ++ args.highlightStyle →
        dictLookup s codenameToCapname = none →
        args.printVersion = false → args.entries ≠ [] →
        mainRun tput prog (some args) r = (MainOutcome.exitCode 0, [])) := by
  refine ⟨?_, ?_, ?_, ?_, ?_⟩
  · intro args i hv he hok
    obtain ⟨codes, hcodes⟩ := hok
    constructor <;> simp [mainRun, hv, he, hcodes]
  · intro args r hv he
    simp [mainRun, hv, he]
  · intro args r hv
    simp [mainRun, hv]
  · intro r
    simp [mainRun]
  · intro args r s hs hlook hv he
    have hsm : s ∈ invalidStyles args.cursorStyle args.highlightStyle :=
      List.mem_filter.mpr ⟨hs, by rw [hlook]; rfl⟩
    have hne : invalidStyles args.cursorStyle args.highlightStyle ≠ [] :=
      List.ne_nil_of_mem hsm
    have hcon : (constructMenu tput args.cursorStyle args.highlightStyle).1 =
        Except.error (ConstructError.invalidStyle
          (invalidStyles args.cursorStyle args.highlightStyle)) := by
      simp [constructMenu, hne]
    simp [mainRun, hv, he, hcon]

/-- Witness for C4: three entries, index 1 selected, exit code 2 and nothing
on standard output. -/
theorem exit_code_contract_check :
    mainRun tputDistinct "stm" (some ⟨false, ["a", "b", "c"], [], [], true⟩) (some 1) =
      (MainOutcome.exitCode 2, []) :=
  ((exit_code_contract tputDistinct "stm").1 ⟨false, ["a", "b", "c"], [], [], true⟩ 1
    rfl (by decide) ⟨distinctCodes, rfl⟩).1

/-- Claim C7: a cursor or highlight style list containing a codename outside
the fixed known set makes construction fail with the invalid-style error
before any terminal action at all (the construction trace is empty, so no
terminal attribute is read or mutated), and the process exits with code 0. -/
theorem invalid_style_aborts_construction (tput : String → QueryResult)
    (cs hs : List String) (s prog : String) (entries : List String)
    (cyc : Bool) (r : Option Nat)
    (hmem : s ∈ cs ++ hs) (hunknown : dictLookup s codenameToCapname = none)
    (hentries : entries ≠ []) :
    (constructMenu tput cs hs).1 =
      Except.error (ConstructError.invalidStyle (invalidStyles cs hs)) ∧
    invalidStyles cs hs ≠ [] ∧
    (constructMenu tput cs hs).2 = [] ∧
    mainRun tput prog (some ⟨false, entries, cs, hs, cyc⟩) r =
      (MainOutcome.exitCode 0, []) := by
  have hsm : s ∈ invalidStyles cs hs :=
    List.mem_filter.mpr ⟨hmem, by rw [hunknown]; rfl⟩
  have hne : invalidStyles cs hs ≠ [] := List.ne_nil_of_mem hsm
  have hcon : (constructMenu tput cs hs).1 =
      Except.error (ConstructError.invalidStyle (invalidStyles cs hs)) := by
    simp [constructMenu, hne]
  refine ⟨hcon, hne, ?_, ?_⟩
  · simp [constructMenu, hne]
  · simp [mainRun, hentries, hcon]

/-- Witness for C7: the unknown style `"bogus"` in the cursor style list. -/
theorem invalid_style_aborts_construction_check :
    (constructMenu tputDistinct ["bogus"] []).1 =
      Except.error (ConstructError.invalidStyle (invalidStyles ["bogus"] [])) ∧
    invalidStyles ["bogus"] [] ≠ [] ∧
    (constructMenu tputDistinct ["bogus"] []).2 = [] ∧
    mainRun tputDistinct "stm" (some ⟨false, ["a"], ["bogus"], [], true⟩) none =
      (MainOutcome.exitCode 0, []) :=
  invalid_style_aborts_construction tputDistinct ["bogus"] [] "bogus" "stm" ["a"] true none
    (by decide) (by decide) (by decide)

/-! ## Helper lemmas about capability initialization -/

theorem buildCodesAux_lookup_color (tput : String → QueryResult) (n : Int)
    (hn : n < 8) :
    ∀ (l : List String) (m : List (String × String)) (tr : List TermAction)
      (cn : String), buildCodesAux tput n l = (Except.ok m, tr) → cn ∈ l →
      isColorCodename cn = true → dictLookup cn m = some "" := by
  intro l
  induction l with
  | nil =>
    intro m tr cn _ hcn _
    cases hcn
  | cons a rest ih =>
    intro m tr cn hb hcn hcol
    simp only [buildCodesAux] at hb
    by_cases hcond : isColorCodename a = true ∧ n < 8
    · rw [if_pos hcond] at hb
      rcases hrec : buildCodesAux tput n rest with ⟨r, tr'⟩
      rw [hrec] at hb
      cases r with
      | error e =>
        rw [Prod.mk.injEq] at hb
        exact Except.noConfusion hb.1
      | ok l' =>
        rw [Prod.mk.injEq] at hb
        obtain ⟨hb1, _⟩ := hb
        rw [Except.ok.injEq] at hb1
        subst hb1
        by_cases hca : cn = a
        · simp [dictLookup, hca]
        · have htail : cn ∈ rest := by
            rcases List.mem_cons.mp hcn with h' | h'
            · exact absurd h' hca
            · exact h'
          unfold dictLookup
          rw [if_neg hca]
          exact ih l' tr' cn hrec htail hcol
    · rw [if_neg hcond] at hb
      cases hq : queryTerminfoDatabase tput a with
      | error rc =>
        rw [hq] at hb
        rw [Prod.mk.injEq] at hb
        exact Except.noConfusion hb.1
      | ok v =>
        rw [hq] at hb
        rcases hrec : buildCodesAux tput n rest with ⟨r, tr'⟩
        rw [hrec] at hb
        cases r with
        | error e =>
          rw [Prod.mk.injEq] at hb
          exact Except.noConfusion hb.1
        | ok l' =>
          rw [Prod.mk.injEq] at hb
          obtain ⟨hb1, _⟩ := hb
          rw [Except.ok.injEq] at hb1
          subst hb1
          by_cases hca : cn = a
          · exact absurd ⟨hca ▸ hcol, hn⟩ hcond
          · have htail : cn ∈ rest := by
              rcases List.mem_cons.mp hcn with h' | h'
              · exact absurd h' hca
              · exact h'
            unfold dictLookup
            rw [if_neg hca]
            exact ih l' tr' cn hrec htail hcol

theorem buildCodesAux_error_aborts (tput : String → QueryResult) (n : Int) :
    ∀ (l : List String) (cn : String) (rc : Int), cn ∈ l →
      (isColorCodename cn = true → 8 ≤ n) →
      tput (capnameFor cn) = QueryResult.err rc → rc ≠ 1 →
      ∃ e, (buildCodesAux tput n l).1 = Except.error e := by
  intro l
  induction l with
  | nil =>
    intro cn rc hcn _ _ _
    cases hcn
  | cons a rest ih =>
    intro cn rc hcn hcol8 hq hrc
    by_cases hcond : isColorCodename a = true ∧ n < 8
    · have htail : cn ∈ rest := by
        rcases List.mem_cons.mp hcn with h' | h'
        · exfalso
          subst h'
          have := hcol8 hcond.1
          omega
        · exact h'
      obtain ⟨e0, he0⟩ := ih cn rc htail hcol8 hq hrc
      rcases hrec : buildCodesAux tput n rest with ⟨r, tr'⟩
      rw [hrec] at he0
      cases r with
      | ok l' => simp at he0
      | error e1 =>
        refine ⟨e1, ?_⟩
        simp only [buildCodesAux]
        rw [if_pos hcond, hrec]
    · cases hq' : queryTerminfoDatabase tput a with
      | error rc' =>
        refine ⟨InitError.calledProcessError rc', ?_⟩
        simp only [buildCodesAux]
        rw [if_neg hcond, hq']
      | ok v =>
        have htail : cn ∈ rest := by
          rcases List.mem_cons.mp hcn with h' | h'
          · exfalso
            subst h'
            unfold queryTerminfoDatabase at hq'
            simp only [hq] at hq'
            rw [if_neg hrc] at hq'
            exact Except.noConfusion hq'
          · exact h'
        obtain ⟨e0, he0⟩ := ih cn rc htail hcol8 hq hrc
        rcases hrec : buildCodesAux tput n rest with ⟨r, tr'⟩
        rw [hrec] at he0
        cases r with
        | ok l' => simp at he0
        | error e1 =>
          refine ⟨e1, ?_⟩
          simp only [buildCodesAux]
          rw [if_neg hcond, hq', hrec]

theorem buildCodesAux_trace_queries (tput : String → QueryResult) (n : Int) :
    ∀ (l : List String) (a : TermAction), a ∈ (buildCodesAux tput n l).2 →
      ∃ cap, a = TermAction.tputQuery cap := by
  intro l
  induction l with
  | nil =>
    intro a ha
    simp [buildCodesAux] at ha
  | cons cn rest ih =>
    intro a ha
    simp only [buildCodesAux] at ha
    by_cases hcond : isColorCodename cn = true ∧ n < 8
    · rw [if_pos hcond] at ha
      rcases hrec : buildCodesAux tput n rest with ⟨r, tr'⟩
      rw [hrec] at ha
      have htr : tr' = (buildCodesAux tput n rest).2 := by rw [hrec]
      cases r with
      | ok l' => exact ih a (htr ▸ ha)
      | error e => exact ih a (htr ▸ ha)
    · rw [if_neg hcond] at ha
      cases hq : queryTerminfoDatabase tput cn with
      | error rc =>
        rw [hq] at ha
        rcases List.mem_cons.mp ha with h' | h'
        · exact ⟨capnameFor cn, h'⟩
        · cases h'
      | ok v =>
        rw [hq] at ha
        rcases hrec : buildCodesAux tput n rest with ⟨r, tr'⟩
        rw [hrec] at ha
        have htr : tr' = (buildCodesAux tput n rest).2 := by rw [hrec]
        cases r with
        | ok l' =>
          rcases List.mem_cons.mp ha with h' | h'
          · exact ⟨capnameFor cn, h'⟩
          · exact ih a (htr ▸ h')
        | error e =>
          rcases List.mem_cons.mp ha with h' | h'
          · exact ⟨capnameFor cn, h'⟩
          · exact ih a (htr ▸ h')

theorem initTerminalCodes_trace_queries (tput : String → QueryResult) :
    ∀ a ∈ (initTerminalCodes tput).2, ∃ cap, a = TermAction.tputQuery cap := by
  intro a ha
  simp only [initTerminalCodes] at ha
  cases hq : queryTerminfoDatabase tput "colors" with
  | error rc =>
    simp only [hq] at ha
    rcases List.mem_cons.mp ha with h' | h'
    · exact ⟨"colors", h'⟩
    · cases h'
  | ok s =>
    simp only [hq] at ha
    cases hp : pythonInt? s with
    | none =>
      simp only [hp] at ha
      rcases List.mem_cons.mp ha with h' | h'
      · exact ⟨"colors", h'⟩
      · cases h'
    | some n =>
      simp only [hp] at ha
      rcases hrec : buildCodesAux tput n codenames with ⟨r, tr⟩
      simp only [hrec] at ha
      have htr : tr = (buildCodesAux tput n codenames).2 := by rw [hrec]
      cases r with
      | ok l' =>
        rcases List.mem_cons.mp ha with h' | h'
        · exact ⟨"colors", h'⟩
        · exact buildCodesAux_trace_queries tput n codenames a (htr ▸ h')
      | error e =>
        rcases List.mem_cons.mp ha with h' | h'
        · exact ⟨"colors", h'⟩
        · exact buildCodesAux_trace_queries tput n codenames a (htr ▸ h')

/-! ## Claim about capability query behavior -/

/-- Claim C8: an absent capability (`tput` return code 1) resolves to the
empty sequence rather than an error; every foreground/background color
codename resolves to the empty sequence when the terminal reports fewer than
8 colors; any other query failure is re-raised and aborts initialization with
an error; and initialization performs only `tput` queries, never a terminal
attribute read or write (raw mode is entered only later, in `show`). -/
theorem capability_query_resolution (tput : String → QueryResult) :
    (∀ codename, tput (capnameFor codename) = QueryResult.err 1 →
        queryTerminfoDatabase tput codename = Except.ok "") ∧
    (∀ s n m tr cn, tput "colors" = QueryResult.ok s → pythonInt? s = some n →
        n < 8 → initTerminalCodes tput = (Except.ok m, tr) →
        isColorCodename cn = true → cn ∈ codenames →
        dictLookup cn m = some "") ∧
    (∀ codename rc, rc ≠ 1 → tput (capnameFor codename) = QueryResult.err rc →
        queryTerminfoDatabase tput codename = Except.error rc) ∧
    (∀ s n cn rc, tput "colors" = QueryResult.ok s → pythonInt? s = some n →
        cn ∈ codenames → (isColorCodename cn = true → 8 ≤ n) →
        tput (capnameFor cn) = QueryResult.err rc → rc ≠ 1 →
        ∃ e, (initTerminalCodes tput).1 = Except.error e) ∧
    (TermAction.attrRead ∉ (initTerminalCodes tput).2 ∧
     TermAction.attrWrite ∉ (initTerminalCodes tput).2) := by
  refine ⟨?_, ?_, ?_, ?_, ?_, ?_⟩
  · intro codename hq
    unfold queryTerminfoDatabase
    rw [hq]
    rfl
  · intro s n m tr cn hcolors hparse hn8 hinit hcol hmem
    have hqc : queryTerminfoDatabase tput "colors" = Except.ok s := by
      unfold queryTerminfoDatabase
      rw [show capnameFor "colors" = "colors" from rfl, hcolors]
    simp only [initTerminalCodes, hqc, hparse] at hinit
    rcases hrec : buildCodesAux tput n codenames with ⟨r, tr2⟩
    rw [hrec] at hinit
    cases r with
    | error e =>
      rw [Prod.mk.injEq] at hinit
      exact Except.noConfusion hinit.1
    | ok l' =>
      rw [Prod.mk.injEq] at hinit
      obtain ⟨hinit1, _⟩ := hinit
      rw [Except.ok.injEq] at hinit1
      subst hinit1
      exact dictLookup_append_some
        (buildCodesAux_lookup_color tput n hn8 codenames l' tr2 cn hrec hmem hcol)
  · intro codename rc hrc hq
    unfold queryTerminfoDatabase
    simp only [hq]
    rw [if_neg hrc]
  · intro s n cn rc hcolors hparse hmem hcol8 hq hrc
    have hqc : queryTerminfoDatabase tput "colors" = Except.ok s := by
      unfold queryTerminfoDatabase
      rw [show capnameFor "colors" = "colors" from rfl, hcolors]
    obtain ⟨e0, he0⟩ := buildCodesAux_error_aborts tput n codenames cn rc hmem hcol8 hq hrc
    rcases hrec : buildCodesAux tput n codenames with ⟨r, tr2⟩
    rw [hrec] at he0
    cases r with
    | ok l' => simp at he0
    | error e1 =>
      refine ⟨e1, ?_⟩
      simp only [initTerminalCodes, hqc, hparse]
      rw [hrec]
  · intro h
    obtain ⟨cap, hc⟩ := initTerminalCodes_trace_queries tput _ h
    exact TermAction.noConfusion hc
  · intro h
    obtain ⟨cap, hc⟩ := initTerminalCodes_trace_queries tput _ h
    exact TermAction.noConfusion hc

/-- Witness for C8: an all-absent terminal resolves `cursor_up` to the empty
sequence; a 0-color terminal resolves `fg_red` to the empty sequence; a
terminal failing with return code 2 propagates the error; and the 0-color
initialization performs no attribute write. -/
theorem capability_query_resolution_check :
    queryTerminfoDatabase tputAbsent "cursor_up" = Except.ok "" ∧
    dictLookup "fg_red" lowColorsCodes = some "" ∧
    queryTerminfoDatabase tputBroken "cursor_up" = Except.error 2 ∧
    TermAction.attrWrite ∉ (initTerminalCodes tputLowColors).2 := by
  refine ⟨(capability_query_resolution tputAbsent).1 "cursor_up" rfl, ?_, ?_, ?_⟩
  · exact (capability_query_resolution tputLowColors).2.1 "0" 0 lowColorsCodes
      ((initTerminalCodes tputLowColors).2) "fg_red" rfl (by decide) (by decide) rfl
      (by decide) (by decide)
  · exact (capability_query_resolution tputBroken).2.2.1 "cursor_up" 2 (by decide) rfl
  · exact ((capability_query_resolution tputLowColors).2.2.2.2).2

end SimpleTermMenu
